import Mathlib

/-!
# Verification of the geometry/math helper library

Shallow embedding of the helper module (`src/helpers.ts`) of the
pixi8-motion-blur-demo repository, together with proofs about the
embedded definitions.

Modelling conventions:
* JS numbers are modelled as `Int` where the code only ever stores and
  compares integral values (binary-search indices, `SortedMap` keys), as
  `ℚ` where exact rational arithmetic mirrors the code's arithmetic
  (`interpolateNumber`, aspect-ratio fitting), and as `ℝ` for the
  trigonometric circle/rectangle geometry.
* A JS array read `a[i]` that may fall outside the array yields
  `undefined`; such reads are modelled with `Option` (`none` playing the
  role of `undefined`, and of the `NaN` that `undefined` turns into when
  it enters arithmetic).
* Fallible functions (`throw new RangeError`/`Error`) return
  `Except String`.
* The `while` loop of `binarySearch` is modelled by structural recursion
  on a fuel parameter; the top-level entry point passes
  `haystack.length + 1` fuel, which is always sufficient because each
  iteration strictly shrinks the interval `[low, high]`.
-/

namespace Helpers

/-! ## JS primitives -/

/-- JS bitwise complement `~x` on (32-bit) integers: `~x = -(x + 1)`. -/
def bitNot (x : Int) : Int := -(x + 1)

/-- `clamp` from the `remeda` library, as used by `helpers.ts`:
the lower bound is checked first, then the upper bound
(`value < min ? min : value > max ? max : value`). -/
def jsClampInt (value lo hi : Int) : Int :=
  if value < lo then lo else if hi < value then hi else value

/-- A JS array read `l[i]` with an `Int` index: `undefined` (`none`) when
the index is negative or past the end. -/
def jsIndex {α : Type} (l : List α) (i : Int) : Option α :=
  if 0 ≤ i then l[i.toNat]? else none

/-! ## binarySearch (`helpers.ts` lines 254–287)

```js
export function binarySearch(haystack, needle, comparator, low, high) {
  let mid, cmp;
  if (low === undefined) low = 0;
  else { low = low | 0;
    if (low < 0 || low >= haystack.length) throw new RangeError("invalid lower bound"); }
  if (high === undefined) high = haystack.length - 1;
  else { high = high | 0;
    if (high < low || high >= haystack.length) throw new RangeError("invalid upper bound"); }
  while (low <= high) {
    mid = low + ((high - low) >>> 1);
    cmp = +comparator(haystack[mid], needle, mid, haystack);
    if (cmp < 0.0) low = mid + 1;
    else if (cmp > 0.0) high = mid - 1;
    else return mid;
  }
  return ~low;
}
```

`low | 0` / `high | 0` truncate to 32-bit integers; the bounds are already
modelled as `Int`, so the truncation is the identity on the values in
range.  `(high - low) >>> 1` is division by two of a non-negative
quantity (`low ≤ high` holds inside the loop). -/

/-- The `while` loop of `binarySearch`, with a fuel parameter bounding the
number of iterations.  `mid` is `low + ((high - low) >>> 1)`, written out
at each occurrence.  `bitNot low` is returned when the interval is
exhausted, exactly as `return ~low`. -/
def bsLoop {T Q : Type} [Inhabited T] (haystack : List T) (needle : Q)
    (comparator : T → Q → Int) : Nat → Int → Int → Int
  | 0, low, _ => bitNot low
  | fuel + 1, low, high =>
    if low ≤ high then
      if comparator (haystack.getD (low + (high - low) / 2).toNat default) needle < 0 then
        bsLoop haystack needle comparator fuel (low + (high - low) / 2 + 1) high
      else if 0 < comparator (haystack.getD (low + (high - low) / 2).toNat default) needle then
        bsLoop haystack needle comparator fuel low (low + (high - low) / 2 - 1)
      else low + (high - low) / 2
    else bitNot low

/-- Number of comparator invocations performed by the `binarySearch` loop:
one per iteration that enters the `while` body. -/
def bsLoopCalls {T Q : Type} [Inhabited T] (haystack : List T) (needle : Q)
    (comparator : T → Q → Int) : Nat → Int → Int → Nat
  | 0, _, _ => 0
  | fuel + 1, low, high =>
    if low ≤ high then
      if comparator (haystack.getD (low + (high - low) / 2).toNat default) needle < 0 then
        1 + bsLoopCalls haystack needle comparator fuel (low + (high - low) / 2 + 1) high
      else if 0 < comparator (haystack.getD (low + (high - low) / 2).toNat default) needle then
        1 + bsLoopCalls haystack needle comparator fuel low (low + (high - low) / 2 - 1)
      else 1
    else 0

/-- `binarySearch(haystack, needle, comparator, low?, high?)`.
`none` for a bound means the argument was omitted. -/
def binarySearch {T Q : Type} [Inhabited T] (haystack : List T) (needle : Q)
    (comparator : T → Q → Int) (low? high? : Option Int) : Except String Int :=
  let lowR : Except String Int :=
    match low? with
    | none => .ok 0
    | some l =>
      if l < 0 ∨ (haystack.length : Int) ≤ l then .error "invalid lower bound"
      else .ok l
  match lowR with
  | .error e => .error e
  | .ok low =>
    match high? with
    | none =>
      .ok (bsLoop haystack needle comparator (haystack.length + 1) low
        ((haystack.length : Int) - 1))
    | some h =>
      if h < low ∨ (haystack.length : Int) ≤ h then .error "invalid upper bound"
      else .ok (bsLoop haystack needle comparator (haystack.length + 1) low h)

/-! ### Specification-side notions for `binarySearch` -/

/-- The comparator's verdict on the element at position `i` (positions past
the end read the default element; all theorems keep indices in range). -/
def cmpAt {T Q : Type} [Inhabited T] (haystack : List T) (needle : Q)
    (comparator : T → Q → Int) (i : Nat) : Int :=
  comparator (haystack.getD i default) needle

/-- The sequence is sorted ascending with respect to the three-way
comparator and the needle: along the sequence, the comparator verdicts are
monotone in sign (once non-negative they never become negative again). -/
def SignMono {T Q : Type} [Inhabited T] (haystack : List T) (needle : Q)
    (comparator : T → Q → Int) : Prop :=
  ∀ j : Nat, j < haystack.length → ∀ i : Nat, i ≤ j →
    (cmpAt haystack needle comparator j < 0 → cmpAt haystack needle comparator i < 0) ∧
    (0 < cmpAt haystack needle comparator i → 0 < cmpAt haystack needle comparator j)

instance signMonoDec {T Q : Type} [Inhabited T] (haystack : List T) (needle : Q)
    (comparator : T → Q → Int) : Decidable (SignMono haystack needle comparator) := by
  unfold SignMono
  infer_instance

/-- `L` is the position at which the needle could be inserted to keep the
sequence ordered: everything before `L` compares below the needle and
everything from `L` on compares above it. -/
def IsInsertionPoint {T Q : Type} [Inhabited T] (haystack : List T) (needle : Q)
    (comparator : T → Q → Int) (L : Nat) : Prop :=
  L ≤ haystack.length ∧
    (∀ i : Nat, i < L → cmpAt haystack needle comparator i < 0) ∧
    (∀ i : Nat, L ≤ i → i < haystack.length → 0 < cmpAt haystack needle comparator i)

/-! ### Correctness of the `binarySearch` loop -/

/-- If some position in the candidate interval compares equal to the
needle, the loop returns the position of a matching element. -/
theorem bsLoop_found {T Q : Type} [Inhabited T] (haystack : List T) (needle : Q)
    (c : T → Q → Int) (hmono : SignMono haystack needle c) :
    ∀ (fuel : Nat) (low high : Int), 0 ≤ low → high < (haystack.length : Int) →
      (high + 1 - low).toNat < fuel →
      (∃ i : Nat, i < haystack.length ∧ cmpAt haystack needle c i = 0 ∧
        low ≤ (i : Int) ∧ (i : Int) ≤ high) →
      ∃ r : Nat, r < haystack.length ∧ cmpAt haystack needle c r = 0 ∧
        bsLoop haystack needle c fuel low high = (r : Int) := by
  intro fuel
  induction fuel with
  | zero =>
    intro low high _ _ hfuel hex
    obtain ⟨i, _, _, hilow, hihigh⟩ := hex
    omega
  | succ fuel ih =>
    intro low high hlow0 hhigh hfuel hex
    obtain ⟨i, hilen, hizero, hilow, hihigh⟩ := hex
    have hlh : low ≤ high := le_trans hilow hihigh
    have hd0 : 0 ≤ (high - low) / 2 := Int.ediv_nonneg (by omega) (by norm_num)
    have hd1 : (high - low) / 2 ≤ high - low := Int.ediv_le_self _ (by omega)
    have hmlow : low ≤ low + (high - low) / 2 := by omega
    have hmhigh : low + (high - low) / 2 ≤ high := by omega
    have hmidnat : ((low + (high - low) / 2).toNat : Int) = low + (high - low) / 2 :=
      Int.toNat_of_nonneg (by omega)
    have hmidlen : (low + (high - low) / 2).toNat < haystack.length := by omega
    have hcdef : c (haystack.getD (low + (high - low) / 2).toNat default) needle =
        cmpAt haystack needle c (low + (high - low) / 2).toNat := rfl
    rcases lt_trichotomy (cmpAt haystack needle c (low + (high - low) / 2).toNat) 0 with
      hc | hc | hc
    · -- comparator < 0: search the upper half
      have hstep : bsLoop haystack needle c (fuel + 1) low high =
          bsLoop haystack needle c fuel (low + (high - low) / 2 + 1) high := by
        simp only [bsLoop, if_pos hlh, hcdef, if_pos hc]
      rw [hstep]
      apply ih (low + (high - low) / 2 + 1) high (by omega) hhigh (by omega)
      refine ⟨i, hilen, hizero, ?_, hihigh⟩
      -- the match position must be strictly above mid
      by_contra hcon
      have hmi : i ≤ (low + (high - low) / 2).toNat := by omega
      have := (hmono (low + (high - low) / 2).toNat hmidlen i hmi).1 hc
      omega
    · -- comparator = 0: found at mid
      refine ⟨(low + (high - low) / 2).toNat, hmidlen, hc, ?_⟩
      simp only [bsLoop, if_pos hlh, hcdef]
      rw [if_neg (by omega), if_neg (by omega)]
      omega
    · -- comparator > 0: search the lower half
      have hstep : bsLoop haystack needle c (fuel + 1) low high =
          bsLoop haystack needle c fuel low (low + (high - low) / 2 - 1) := by
        simp only [bsLoop, if_pos hlh, hcdef]
        rw [if_neg (by omega), if_pos hc]
      rw [hstep]
      apply ih low (low + (high - low) / 2 - 1) hlow0 (by omega) (by omega)
      refine ⟨i, hilen, hizero, hilow, ?_⟩
      by_contra hcon
      have hmi : (low + (high - low) / 2).toNat ≤ i := by omega
      have := (hmono i hilen (low + (high - low) / 2).toNat hmi).2 hc
      omega

/-- If no position compares equal to the needle, the loop returns the
bitwise complement of the insertion point. -/
theorem bsLoop_notFound {T Q : Type} [Inhabited T] (haystack : List T) (needle : Q)
    (c : T → Q → Int) (hmono : SignMono haystack needle c)
    (hno : ∀ i : Nat, i < haystack.length → cmpAt haystack needle c i ≠ 0) :
    ∀ (fuel : Nat) (low high : Int), 0 ≤ low → low ≤ (haystack.length : Int) →
      high < (haystack.length : Int) →
      (high + 1 - low).toNat < fuel →
      (∀ i : Nat, (i : Int) < low → i < haystack.length → cmpAt haystack needle c i < 0) →
      (∀ i : Nat, high < (i : Int) → i < haystack.length → 0 < cmpAt haystack needle c i) →
      ∃ L : Nat, IsInsertionPoint haystack needle c L ∧
        bsLoop haystack needle c fuel low high = bitNot (L : Int) := by
  intro fuel
  induction fuel with
  | zero => intro low high _ _ _ hfuel _ _; omega
  | succ fuel ih =>
    intro low high hlow0 hlowlen hhigh hfuel hinvlow hinvhigh
    by_cases hlh : low ≤ high
    · have hd0 : 0 ≤ (high - low) / 2 := Int.ediv_nonneg (by omega) (by norm_num)
      have hd1 : (high - low) / 2 ≤ high - low := Int.ediv_le_self _ (by omega)
      have hmlow : low ≤ low + (high - low) / 2 := by omega
      have hmhigh : low + (high - low) / 2 ≤ high := by omega
      have hmidnat : ((low + (high - low) / 2).toNat : Int) = low + (high - low) / 2 :=
        Int.toNat_of_nonneg (by omega)
      have hmidlen : (low + (high - low) / 2).toNat < haystack.length := by omega
      have hcdef : c (haystack.getD (low + (high - low) / 2).toNat default) needle =
          cmpAt haystack needle c (low + (high - low) / 2).toNat := rfl
      rcases lt_trichotomy (cmpAt haystack needle c (low + (high - low) / 2).toNat) 0 with
        hc | hc | hc
      · have hstep : bsLoop haystack needle c (fuel + 1) low high =
            bsLoop haystack needle c fuel (low + (high - low) / 2 + 1) high := by
          simp only [bsLoop, if_pos hlh, hcdef, if_pos hc]
        rw [hstep]
        apply ih (low + (high - low) / 2 + 1) high (by omega) (by omega) hhigh (by omega)
        · intro i hi hilen
          rcases lt_or_le (i : Int) low with h | h
          · exact hinvlow i h hilen
          · have hmi : i ≤ (low + (high - low) / 2).toNat := by omega
            exact (hmono (low + (high - low) / 2).toNat hmidlen i hmi).1 hc
        · exact hinvhigh
      · exact absurd hc (hno _ hmidlen)
      · have hstep : bsLoop haystack needle c (fuel + 1) low high =
            bsLoop haystack needle c fuel low (low + (high - low) / 2 - 1) := by
          simp only [bsLoop, if_pos hlh, hcdef]
          rw [if_neg (by omega), if_pos hc]
        rw [hstep]
        apply ih low (low + (high - low) / 2 - 1) hlow0 hlowlen (by omega) (by omega) hinvlow
        intro i hi hilen
        rcases lt_or_le high (i : Int) with h | h
        · exact hinvhigh i h hilen
        · have hmi : (low + (high - low) / 2).toNat ≤ i := by omega
          exact (hmono i hilen (low + (high - low) / 2).toNat hmi).2 hc
    · -- interval exhausted: return ~low, and low is the insertion point
      refine ⟨low.toNat, ⟨by omega, ?_, ?_⟩, ?_⟩
      · intro i hi
        exact hinvlow i (by omega) (by omega)
      · intro i hi hilen
        exact hinvhigh i (by omega) hilen
      · simp only [bsLoop, if_neg hlh]
        have : ((low.toNat : Int)) = low := Int.toNat_of_nonneg hlow0
        rw [this]

/-- The insertion point is unique. -/
theorem isInsertionPoint_unique {T Q : Type} [Inhabited T] (haystack : List T)
    (needle : Q) (c : T → Q → Int) (L L' : Nat)
    (h : IsInsertionPoint haystack needle c L)
    (h' : IsInsertionPoint haystack needle c L') : L = L' := by
  obtain ⟨hL, hlt, hgt⟩ := h
  obtain ⟨hL', hlt', hgt'⟩ := h'
  by_contra hne
  rcases Nat.lt_or_ge L L' with hlt2 | hge
  · have h1 := hlt' L hlt2
    have h2 := hgt L (le_refl L) (by omega)
    omega
  · have hlt3 : L' < L := by omega
    have h1 := hlt L' hlt3
    have h2 := hgt' L' (le_refl L') (by omega)
    omega

/-- Evaluation of `binarySearch` with both bounds supplied: the two range
checks in order, then the loop. -/
theorem binarySearch_some_eval {T Q : Type} [Inhabited T] (haystack : List T)
    (needle : Q) (comparator : T → Q → Int) (low high : Int) :
    binarySearch haystack needle comparator (some low) (some high) =
      if low < 0 ∨ (haystack.length : Int) ≤ low then .error "invalid lower bound"
      else if high < low ∨ (haystack.length : Int) ≤ high then .error "invalid upper bound"
      else .ok (bsLoop haystack needle comparator (haystack.length + 1) low high) := by
  by_cases h1 : low < 0 ∨ (haystack.length : Int) ≤ low
  · simp [binarySearch, h1]
  · simp [binarySearch, h1]

/-- C2: on a sequence sorted ascending for the three-way comparator,
`binarySearch` returns an index whose element compares equal to the needle
when one exists, and otherwise the bitwise complement `~insertionPoint` of
the unique position where the needle could be inserted to keep the
sequence ordered; the result is non-negative exactly when the needle is
found.  In particular `binarySearch([1,3,5,7], 5, (a,b)=>a-b) == 2` and
`binarySearch([1,3,5,7], 4, (a,b)=>a-b) == ~2`. -/
theorem binarySearch_spec {T Q : Type} [Inhabited T]
    (haystack : List T) (needle : Q) (comparator : T → Q → Int)
    (hmono : SignMono haystack needle comparator) :
    ((∃ i : Nat, i < haystack.length ∧ cmpAt haystack needle comparator i = 0) →
      ∃ r : Nat, r < haystack.length ∧ cmpAt haystack needle comparator r = 0 ∧
        binarySearch haystack needle comparator none none = .ok (r : Int)) ∧
    ((∀ i : Nat, i < haystack.length → cmpAt haystack needle comparator i ≠ 0) →
      ∃ L : Nat, IsInsertionPoint haystack needle comparator L ∧
        (∀ L' : Nat, IsInsertionPoint haystack needle comparator L' → L' = L) ∧
        binarySearch haystack needle comparator none none = .ok (bitNot (L : Int))) ∧
    (∀ z : Int, binarySearch haystack needle comparator none none = .ok z →
      (0 ≤ z ↔ ∃ i : Nat, i < haystack.length ∧ cmpAt haystack needle comparator i = 0)) ∧
    binarySearch [1, 3, 5, 7] (5 : Int) (fun a b => a - b) none none = .ok 2 ∧
    binarySearch [1, 3, 5, 7] (4 : Int) (fun a b => a - b) none none = .ok (bitNot 2) := by
  have hfound : (∃ i : Nat, i < haystack.length ∧ cmpAt haystack needle comparator i = 0) →
      ∃ r : Nat, r < haystack.length ∧ cmpAt haystack needle comparator r = 0 ∧
        binarySearch haystack needle comparator none none = .ok (r : Int) := by
    intro hex
    obtain ⟨i, hilen, hizero⟩ := hex
    obtain ⟨r, hrlen, hrzero, hr⟩ :=
      bsLoop_found haystack needle comparator hmono (haystack.length + 1) 0
        ((haystack.length : Int) - 1) (by omega) (by omega) (by omega)
        ⟨i, hilen, hizero, by omega, by omega⟩
    exact ⟨r, hrlen, hrzero, by simp [binarySearch, hr]⟩
  have hnot : (∀ i : Nat, i < haystack.length → cmpAt haystack needle comparator i ≠ 0) →
      ∃ L : Nat, IsInsertionPoint haystack needle comparator L ∧
        (∀ L' : Nat, IsInsertionPoint haystack needle comparator L' → L' = L) ∧
        binarySearch haystack needle comparator none none = .ok (bitNot (L : Int)) := by
    intro hno
    obtain ⟨L, hL, hLeq⟩ :=
      bsLoop_notFound haystack needle comparator hmono hno (haystack.length + 1) 0
        ((haystack.length : Int) - 1) (by omega) (by omega) (by omega) (by omega)
        (by omega) (by omega)
    exact ⟨L, hL, fun L' hL' => isInsertionPoint_unique haystack needle comparator L' L hL' hL,
      by simp [binarySearch, hLeq]⟩
  refine ⟨hfound, hnot, ?_, by rfl, by rfl⟩
  intro z hz
  by_cases hex : ∃ i : Nat, i < haystack.length ∧ cmpAt haystack needle comparator i = 0
  · obtain ⟨r, _, _, hr⟩ := hfound hex
    rw [hz] at hr
    simp only [Except.ok.injEq] at hr
    constructor
    · intro _; exact hex
    · intro _; omega
  · push_neg at hex
    obtain ⟨L, _, _, hL⟩ := hnot hex
    rw [hz] at hL
    simp only [Except.ok.injEq] at hL
    constructor
    · intro h0
      exfalso
      simp only [bitNot] at hL
      omega
    · intro h
      exact absurd h (by push_neg; exact hex)

/-- Witness for C2 at a concrete sorted list: searching for `20` in
`[10, 20]` finds it. -/
theorem binarySearch_spec_witness :
    ∃ r : Nat, r < 2 ∧ cmpAt [10, 20] (20 : Int) (fun a b => a - b) r = 0 ∧
      binarySearch [(10 : Int), 20] (20 : Int) (fun a b => a - b) none none = .ok (r : Int) :=
  (binarySearch_spec [(10 : Int), 20] (20 : Int) (fun a b => a - b)
    (by decide)).1 ⟨1, by decide, by decide⟩

/-- C4: with explicitly supplied bounds, `binarySearch` reports a range
error exactly when `0 ≤ low ≤ high < length` fails; with valid supplied
bounds, or with both bounds omitted, it returns a result and raises no
error. -/
theorem binarySearch_bounds {T Q : Type} [Inhabited T] (haystack : List T)
    (needle : Q) (comparator : T → Q → Int) (low high : Int) :
    ((∃ msg : String,
        binarySearch haystack needle comparator (some low) (some high) = .error msg) ↔
      ¬(0 ≤ low ∧ low ≤ high ∧ high < (haystack.length : Int))) ∧
    (∃ z : Int, binarySearch haystack needle comparator none none = .ok z) := by
  constructor
  · rw [binarySearch_some_eval]
    by_cases h1 : low < 0 ∨ (haystack.length : Int) ≤ low
    · simp only [if_pos h1]
      constructor
      · intro _; omega
      · intro _; exact ⟨_, rfl⟩
    · rw [if_neg h1]
      by_cases h2 : high < low ∨ (haystack.length : Int) ≤ high
      · simp only [if_pos h2]
        constructor
        · intro _; omega
        · intro _; exact ⟨_, rfl⟩
      · simp only [if_neg h2]
        constructor
        · rintro ⟨msg, hmsg⟩; cases hmsg
        · intro h; omega
  · exact ⟨_, rfl⟩

/-- C10: on the empty list with both bounds omitted, `binarySearch`
returns `~0 == -1` without error (the insertion point is `0`), and the
comparator is never invoked. -/
theorem binarySearch_empty_spec {T Q : Type} [Inhabited T] (needle : Q)
    (comparator : T → Q → Int) :
    binarySearch ([] : List T) needle comparator none none = .ok (bitNot 0) ∧
    bitNot 0 = -1 ∧
    IsInsertionPoint ([] : List T) needle comparator 0 ∧
    (∀ fuel : Nat, bsLoopCalls ([] : List T) needle comparator fuel 0 (-1) = 0) := by
  refine ⟨rfl, rfl, ⟨by simp, by omega, fun i _ h => absurd h (by simp)⟩, ?_⟩
  intro fuel
  cases fuel <;> simp [bsLoopCalls]

/-! ## SortedMap (`helpers.ts` lines 404–436)

```js
export class SortedMap {
  constructor() { this.map = new Map(); this.sortedKeys = []; }
  set(key, value) {
    if (!this.map.has(key)) {
      this.sortedKeys.push(key);
      this.sortedKeys.sort((a, b) => a - b);
    }
    this.map.set(key, value);
  }
  findNearest(targetKey) {
    let index = binarySearch(this.sortedKeys, targetKey, (a, b) => a - b);
    let keyIndex = index < 0 ? Math.abs(index) - 2 : index;
    return this.map.get(this.sortedKeys[keyIndex]);
  }
  has(key) { return this.map.has(key); }
  clear() { this.map.clear(); this.sortedKeys = []; }
}
```

The JS `Map` is modelled as an insertion-ordered association list.
`.sort((a, b) => a - b)` sorts ascending; it is modelled by insertion
sort with `≤` (the keys being pairwise distinct, every ascending sort
produces the same list).  `findNearest` calls `binarySearch` with both
bounds omitted, which runs the loop on `low = 0`,
`high = sortedKeys.length - 1` and cannot throw; the loop call is
inlined accordingly. -/

/-- `Map.prototype.has` on an association list. -/
def mapHas {V : Type} (m : List (Int × V)) (key : Int) : Bool :=
  m.any (fun p => p.1 == key)

/-- `Map.prototype.get` on an association list. -/
def mapGet {V : Type} (m : List (Int × V)) (key : Int) : Option V :=
  (m.find? (fun p => p.1 == key)).map Prod.snd

/-- `Map.prototype.set` on an association list: overwrite in place when the
key is present, append otherwise. -/
def mapSet {V : Type} : List (Int × V) → Int → V → List (Int × V)
  | [], key, value => [(key, value)]
  | (k, v) :: rest, key, value =>
    if k = key then (key, value) :: rest else (k, v) :: mapSet rest key value

/-- The `SortedMap` state: the private `map` and `sortedKeys` fields. -/
structure SortedMap (V : Type) where
  map : List (Int × V)
  sortedKeys : List Int
deriving DecidableEq

/-- The constructor: both structures empty. -/
def SortedMap.empty (V : Type) : SortedMap V := ⟨[], []⟩

/-- `set(key, value)`. -/
def SortedMap.set {V : Type} (s : SortedMap V) (key : Int) (value : V) :
    SortedMap V :=
  { map := mapSet s.map key value
    sortedKeys :=
      if mapHas s.map key then s.sortedKeys
      else List.insertionSort (· ≤ ·) (s.sortedKeys ++ [key]) }

/-- `findNearest(targetKey)`.  `Math.abs(index) - 2` is
`(index.natAbs : Int) - 2`; an out-of-range `sortedKeys[keyIndex]` is
`undefined`, and `map.get(undefined)` is `undefined` (`none`). -/
def SortedMap.findNearest {V : Type} (s : SortedMap V) (targetKey : Int) :
    Option V :=
  let index := bsLoop s.sortedKeys targetKey (fun a b => a - b)
    (s.sortedKeys.length + 1) 0 ((s.sortedKeys.length : Int) - 1)
  let keyIndex : Int := if index < 0 then (index.natAbs : Int) - 2 else index
  (jsIndex s.sortedKeys keyIndex).bind (fun key => mapGet s.map key)

/-- `has(key)`. -/
def SortedMap.has {V : Type} (s : SortedMap V) (key : Int) : Bool :=
  mapHas s.map key

/-- `clear()`. -/
def SortedMap.clear {V : Type} (_s : SortedMap V) : SortedMap V := ⟨[], []⟩

/-- The `SortedMap` invariant: the key sequence is strictly ascending
(hence duplicate-free) and holds exactly the keys of the mapping. -/
def SortedMap.WF {V : Type} (s : SortedMap V) : Prop :=
  s.sortedKeys.Sorted (· < ·) ∧ s.sortedKeys.Perm (s.map.map Prod.fst)

instance sortedMapWFDec {V : Type} (s : SortedMap V) : Decidable s.WF := by
  unfold SortedMap.WF
  infer_instance

/-- The states reachable from the empty map.  `findNearest` and `has` do
not modify the state (they are pure in the embedding), so the reachable
states are generated by `set` and `clear`. -/
inductive Reachable {V : Type} : SortedMap V → Prop
  | empty : Reachable (SortedMap.empty V)
  | set (s : SortedMap V) (key : Int) (value : V) :
      Reachable s → Reachable (s.set key value)
  | clear (s : SortedMap V) : Reachable s → Reachable s.clear

/-! ### Association-list facts -/

theorem mapHas_iff {V : Type} (m : List (Int × V)) (key : Int) :
    mapHas m key = true ↔ key ∈ m.map Prod.fst := by
  simp only [mapHas, List.any_eq_true, List.mem_map, beq_iff_eq]

theorem mapSet_fst_of_has {V : Type} {m : List (Int × V)} {key : Int}
    (h : mapHas m key = true) (value : V) :
    (mapSet m key value).map Prod.fst = m.map Prod.fst := by
  induction m with
  | nil => simp [mapHas] at h
  | cons p rest ih =>
    obtain ⟨k, v⟩ := p
    by_cases hp : k = key
    · subst hp
      simp [mapSet]
    · have h' : mapHas rest key = true := by
        simp only [mapHas, List.any_cons, Bool.or_eq_true, beq_iff_eq] at h
        rcases h with h | h
        · exact absurd h hp
        · exact h
      simp [mapSet, hp, ih h']

theorem mapSet_fst_of_not_has {V : Type} {m : List (Int × V)} {key : Int}
    (h : mapHas m key = false) (value : V) :
    (mapSet m key value).map Prod.fst = m.map Prod.fst ++ [key] := by
  induction m with
  | nil => simp [mapSet]
  | cons p rest ih =>
    obtain ⟨k, v⟩ := p
    simp only [mapHas, List.any_cons, Bool.or_eq_false_iff, beq_eq_false_iff_ne,
      ne_eq] at h
    obtain ⟨hp, h'⟩ := h
    simp [mapSet, hp, ih h']

/-- `set` preserves the `SortedMap` invariant. -/
theorem SortedMap.WF.set {V : Type} {s : SortedMap V} (h : s.WF) (key : Int)
    (value : V) : (s.set key value).WF := by
  obtain ⟨hsort, hperm⟩ := h
  by_cases hk : mapHas s.map key = true
  · refine ⟨?_, ?_⟩
    · simpa [SortedMap.set, hk] using hsort
    · simp only [SortedMap.set, hk, if_pos, mapSet_fst_of_has hk value]
      exact hperm
  · replace hk : mapHas s.map key = false := by
      cases hmapHas : mapHas s.map key
      · rfl
      · exact absurd hmapHas hk
    have hkmem : key ∉ s.sortedKeys := by
      intro hmem
      have h1 : key ∈ s.map.map Prod.fst := hperm.mem_iff.mp hmem
      rw [← mapHas_iff] at h1
      rw [hk] at h1
      cases h1
    have hnodup : (s.sortedKeys ++ [key]).Nodup := by
      simp [List.nodup_append, hsort.nodup, hkmem]
    have hperm2 : (List.insertionSort (· ≤ ·) (s.sortedKeys ++ [key])).Perm
        (s.sortedKeys ++ [key]) := List.perm_insertionSort _ _
    refine ⟨?_, ?_⟩
    · simp only [SortedMap.set, hk, Bool.false_eq_true, if_false]
      exact List.Sorted.lt_of_le (List.sorted_insertionSort _ _)
        (hperm2.nodup_iff.mpr hnodup)
    · simp only [SortedMap.set, hk, Bool.false_eq_true, if_false,
        mapSet_fst_of_not_has hk value]
      exact hperm2.trans (hperm.append_right [key])

/-- C3: every `SortedMap` reachable from the empty map satisfies the
invariant (key sequence strictly ascending, no duplicates, exactly the
mapping's key set); moreover `set` on an existing key leaves the key
sequence unchanged, `set` on a new key inserts exactly that key (the new
sequence is a sorted permutation of the old one plus the key), and
`clear` resets the state to the empty one. -/
theorem sortedMap_invariant (V : Type) :
    (∀ s : SortedMap V, Reachable s → s.WF) ∧
    (∀ (s : SortedMap V) (key : Int) (value : V),
      mapHas s.map key = true → (s.set key value).sortedKeys = s.sortedKeys) ∧
    (∀ (s : SortedMap V) (key : Int) (value : V), s.WF →
      mapHas s.map key = false →
      (s.set key value).sortedKeys.Perm (key :: s.sortedKeys) ∧
      (s.set key value).sortedKeys.Sorted (· < ·)) ∧
    (∀ s : SortedMap V, s.clear = SortedMap.empty V) := by
  refine ⟨?_, ?_, ?_, fun s => rfl⟩
  · intro s h
    induction h with
    | empty => exact ⟨List.sorted_nil, List.Perm.refl _⟩
    | set s key value _ ih => exact ih.set key value
    | clear s _ => exact ⟨List.sorted_nil, List.Perm.refl _⟩
  · intro s key value h
    simp [SortedMap.set, h]
  · intro s key value hWF hk
    refine ⟨?_, (hWF.set key value).1⟩
    simp only [SortedMap.set, hk, Bool.false_eq_true, if_false]
    exact (List.perm_insertionSort _ _).trans (List.perm_append_singleton _ _)

/-- Witness for C3: a concrete reachable map satisfies the invariant. -/
theorem sortedMap_invariant_witness : ((SortedMap.empty Nat).set 2 5).WF :=
  (sortedMap_invariant Nat).1 _ (Reachable.set _ 2 5 Reachable.empty)

/-! ### `findNearest` is floor-based nearest-key lookup -/

/-- `max?` of an `Int` list: an element that is an upper bound is the
maximum. -/
theorem int_max?_eq_some {l : List Int} {a : Int} (ha : a ∈ l)
    (hub : ∀ b ∈ l, b ≤ a) : l.max? = some a := by
  haveI : Std.Antisymm (α := Int) (· ≤ ·) := ⟨fun h1 h2 => le_antisymm h1 h2⟩
  rw [List.max?_eq_some_iff (fun a => le_refl a) (fun a b => max_choice a b)
    (fun _ _ _ => max_le_iff)]
  exact ⟨ha, hub⟩

/-- A strictly ascending `Int` list is sorted for the comparator
`(a, b) => a - b` and any needle. -/
theorem signMono_of_sorted {keys : List Int} (hsort : keys.Sorted (· < ·))
    (targetKey : Int) : SignMono keys targetKey (fun a b => a - b) := by
  intro j hj i hij
  have hle : keys.getD i default ≤ keys.getD j default := by
    rcases Nat.eq_or_lt_of_le hij with rfl | hlt
    · exact le_refl _
    · have hi : i < keys.length := lt_trans hlt hj
      rw [List.getD_eq_getElem _ _ hi, List.getD_eq_getElem _ _ hj]
      exact le_of_lt (List.pairwise_iff_getElem.mp hsort i j hi hj hlt)
  constructor
  · intro h
    simp only [cmpAt] at *
    omega
  · intro h
    simp only [cmpAt] at *
    omega

/-- Unfolding of `findNearest` (the `let` bindings written out). -/
theorem findNearest_eval {V : Type} (s : SortedMap V) (targetKey : Int) :
    s.findNearest targetKey =
      (jsIndex s.sortedKeys
        (if bsLoop s.sortedKeys targetKey (fun a b => a - b) (s.sortedKeys.length + 1) 0
            ((s.sortedKeys.length : Int) - 1) < 0
         then ((bsLoop s.sortedKeys targetKey (fun a b => a - b) (s.sortedKeys.length + 1) 0
            ((s.sortedKeys.length : Int) - 1)).natAbs : Int) - 2
         else bsLoop s.sortedKeys targetKey (fun a b => a - b) (s.sortedKeys.length + 1) 0
            ((s.sortedKeys.length : Int) - 1))).bind
        (fun key => mapGet s.map key) := rfl

/-- C1: on any `SortedMap` satisfying the invariant, `findNearest` is
floor-based lookup: it returns the value stored under the greatest key
`≤ targetKey` (the element of the sorted key sequence at
`insertionPoint - 1` when the target is absent), and `undefined` when the
target is smaller than every stored key or the map is empty.  In
particular, after `set(1,'a'); set(5,'b'); set(3,'c')`,
`findNearest(4) == 'c'` and `findNearest(0) == undefined`. -/
theorem findNearest_floor {V : Type} (s : SortedMap V) (hWF : s.WF)
    (targetKey : Int) :
    s.findNearest targetKey =
      ((s.sortedKeys.filter (fun k => k ≤ targetKey)).max?).bind
        (fun k => mapGet s.map k) ∧
    (((SortedMap.empty String).set 1 "a" |>.set 5 "b" |>.set 3 "c").findNearest 4
      = some "c") ∧
    (((SortedMap.empty String).set 1 "a" |>.set 5 "b" |>.set 3 "c").findNearest 0
      = none) := by
  refine ⟨?_, by decide, by decide⟩
  obtain ⟨hsort, _⟩ := hWF
  have hmono := signMono_of_sorted hsort targetKey
  by_cases hmem : targetKey ∈ s.sortedKeys
  · -- the target is a stored key: binary search finds it
    obtain ⟨i, hi, hieq⟩ := List.mem_iff_getElem.mp hmem
    have hcz : cmpAt s.sortedKeys targetKey (fun a b => a - b) i = 0 := by
      simp only [cmpAt]
      rw [List.getD_eq_getElem _ _ hi, hieq]
      omega
    obtain ⟨r, hrlen, hrz, hrval⟩ := bsLoop_found s.sortedKeys targetKey _ hmono
      (s.sortedKeys.length + 1) 0 ((s.sortedKeys.length : Int) - 1) (by omega)
      (by omega) (by omega) ⟨i, hi, hcz, by omega, by omega⟩
    have hrk : s.sortedKeys.getD r default = targetKey := by
      simp only [cmpAt] at hrz
      omega
    rw [findNearest_eval, hrval, if_neg (by omega)]
    have hjs : jsIndex s.sortedKeys ((r : Nat) : Int) = some targetKey := by
      simp only [jsIndex, if_pos (by omega : (0 : Int) ≤ (r : Nat))]
      rw [Int.toNat_natCast, List.getElem?_eq_getElem hrlen]
      rw [← List.getD_eq_getElem _ default hrlen, hrk]
    rw [hjs]
    have hmax : (s.sortedKeys.filter (fun k => k ≤ targetKey)).max? = some targetKey := by
      apply int_max?_eq_some
      · simp only [List.mem_filter, decide_eq_true_eq]
        exact ⟨hmem, le_refl _⟩
      · intro b hb
        simp only [List.mem_filter, decide_eq_true_eq] at hb
        exact hb.2
    rw [hmax]
  · -- the target is absent: binary search yields the insertion point
    have hno : ∀ i : Nat, i < s.sortedKeys.length →
        cmpAt s.sortedKeys targetKey (fun a b => a - b) i ≠ 0 := by
      intro i hi hz
      apply hmem
      have : s.sortedKeys.getD i default = targetKey := by
        simp only [cmpAt] at hz
        omega
      rw [← this, List.getD_eq_getElem _ default hi]
      exact List.getElem_mem hi
    obtain ⟨L, ⟨hLlen, hLlt, hLgt⟩, hLval⟩ :=
      bsLoop_notFound s.sortedKeys targetKey _ hmono hno (s.sortedKeys.length + 1) 0
        ((s.sortedKeys.length : Int) - 1) (by omega) (by omega) (by omega) (by omega)
        (fun i hi _ => absurd hi (by omega)) (fun i hi hilen => absurd hi (by omega))
    rw [findNearest_eval, hLval, if_pos (by simp only [bitNot]; omega)]
    have habs : (((bitNot (L : Int)).natAbs : Int)) - 2 = (L : Int) - 1 := by
      simp only [bitNot]
      omega
    rw [habs]
    cases hL0 : L with
    | zero =>
      subst hL0
      have hjs : jsIndex s.sortedKeys (((0 : Nat) : Int) - 1) = none := by
        simp [jsIndex]
      rw [hjs]
      have hfil : s.sortedKeys.filter (fun k => k ≤ targetKey) = [] := by
        rw [List.filter_eq_nil_iff]
        intro b hb
        simp only [decide_eq_true_eq]
        obtain ⟨j, hj, hjeq⟩ := List.mem_iff_getElem.mp hb
        have := hLgt j (Nat.zero_le j) hj
        simp only [cmpAt, List.getD_eq_getElem _ default hj, hjeq] at this
        omega
      rw [hfil]
      rfl
    | succ L0 =>
      subst hL0
      have hL0len : L0 < s.sortedKeys.length := by omega
      have hcast : ((L0 + 1 : Nat) : Int) - 1 = ((L0 : Nat) : Int) := by push_cast; ring
      rw [hcast]
      have hjs : jsIndex s.sortedKeys ((L0 : Nat) : Int) =
          some s.sortedKeys[L0] := by
        simp only [jsIndex, if_pos (by omega : (0 : Int) ≤ ((L0 : Nat) : Int))]
        rw [Int.toNat_natCast, List.getElem?_eq_getElem hL0len]
      rw [hjs]
      have hmax : (s.sortedKeys.filter (fun k => k ≤ targetKey)).max? =
          some s.sortedKeys[L0] := by
        apply int_max?_eq_some
        · simp only [List.mem_filter, decide_eq_true_eq]
          refine ⟨List.getElem_mem hL0len, ?_⟩
          have := hLlt L0 (Nat.lt_succ_self L0)
          simp only [cmpAt, List.getD_eq_getElem _ default hL0len] at this
          omega
        · intro b hb
          simp only [List.mem_filter, decide_eq_true_eq] at hb
          obtain ⟨hbmem, hble⟩ := hb
          obtain ⟨j, hj, hjeq⟩ := List.mem_iff_getElem.mp hbmem
          rcases Nat.lt_or_ge j (L0 + 1) with hjL | hjL
          · rcases Nat.lt_or_ge j L0 with hjL0 | hjL0
            · rw [← hjeq]
              exact le_of_lt (List.pairwise_iff_getElem.mp hsort j L0 hj hL0len hjL0)
            · have hjeq2 : j = L0 := by omega
              subst hjeq2
              rw [← hjeq]
          · exfalso
            have := hLgt j hjL hj
            simp only [cmpAt, List.getD_eq_getElem _ default hj, hjeq] at this
            omega
      rw [hmax]

/-- Witness for C1: the floor-lookup equation instantiated at a concrete
invariant-satisfying map. -/
theorem findNearest_floor_witness :
    (((SortedMap.empty String).set 1 "a" |>.set 5 "b" |>.set 3 "c").findNearest 4 =
      (((((SortedMap.empty String).set 1 "a" |>.set 5 "b" |>.set 3 "c").sortedKeys.filter
          (fun k => k ≤ 4)).max?).bind
        (fun k => mapGet (((SortedMap.empty String).set 1 "a" |>.set 5 "b"
          |>.set 3 "c").map) k))) :=
  (findNearest_floor ((SortedMap.empty String).set 1 "a" |>.set 5 "b" |>.set 3 "c")
    (by decide) 4).1

/-! ## createChangeTracker (`helpers.ts` lines 444–462)

```js
export function createChangeTracker(trueOnFirstCall = true) {
  let previousArgs = undefined;
  return function checkArgs(...args) {
    if (!previousArgs) { previousArgs = args; return trueOnFirstCall; }
    if (deepEqual(args, previousArgs)) { return false; }
    else { previousArgs = args; return true; }
  };
}
```

The closure's state is the recorded argument tuple (`none` before the
first call; a recorded `args` array is always truthy, even when empty).
`deepEqual` from `fast-equals` is deep structural equality, which on the
embedded value type is decidable equality of the argument lists. -/

/-- One invocation of the tracker: returns the boolean result and the new
recorded state. -/
def checkArgs {V : Type} [DecidableEq V] (trueOnFirstCall : Bool)
    (previousArgs : Option (List V)) (args : List V) : Bool × Option (List V) :=
  match previousArgs with
  | none => (trueOnFirstCall, some args)
  | some prev => if args = prev then (false, some prev) else (true, some args)

/-- Run a tracker created by `createChangeTracker(trueOnFirstCall)` over a
sequence of calls, starting from the given state, collecting the returned
booleans. -/
def runTracker {V : Type} [DecidableEq V] (trueOnFirstCall : Bool) :
    Option (List V) → List (List V) → List Bool
  | _, [] => []
  | st, args :: rest =>
    (checkArgs trueOnFirstCall st args).1 ::
      runTracker trueOnFirstCall (checkArgs trueOnFirstCall st args).2 rest

/-- C5: the first invocation returns `trueOnFirstCall` and records its
arguments; a later invocation whose arguments are deeply equal to the
recorded tuple returns `false` and leaves the record unchanged, and one
with different arguments records them and returns `true`.  In particular,
for `t = createChangeTracker()`, the calls `t(1,2); t(1,2); t(1,3)` return
`true, false, true`. -/
theorem changeTracker_spec {V : Type} [DecidableEq V] (trueOnFirstCall : Bool)
    (args prev : List V) :
    checkArgs trueOnFirstCall none args = (trueOnFirstCall, some args) ∧
    (args = prev → checkArgs trueOnFirstCall (some prev) args = (false, some prev)) ∧
    (args ≠ prev → checkArgs trueOnFirstCall (some prev) args = (true, some args)) ∧
    runTracker true (none : Option (List Int)) [[1, 2], [1, 2], [1, 3]] =
      [true, false, true] := by
  refine ⟨rfl, ?_, ?_, by decide⟩
  · intro h
    simp [checkArgs, h]
  · intro h
    simp [checkArgs, h]

/-- Witness for C5 at concrete argument tuples. -/
theorem changeTracker_spec_witness :
    checkArgs true (some [(1 : Int), 2]) [1, 2] = (false, some [1, 2]) :=
  (changeTracker_spec true [(1 : Int), 2] [1, 2]).2.1 rfl

/-! ## Circle and rectangle geometry (`helpers.ts` lines 101–106, 151–169)

Points, rectangles and radii are JS numbers; the trigonometric geometry is
modelled over `ℝ`. -/

/-- The `Point` interface: `{x, y}`. -/
structure Point where
  x : ℝ
  y : ℝ

/-- The `Rect` interface: a `Point` plus a `Dimension`. -/
structure Rect where
  x : ℝ
  y : ℝ
  width : ℝ
  height : ℝ

/-- `inRadius({x, y}, {x: cx, y: cy}, r)`: squared distance from the point
to the centre is at most `r ** 2` (boundary inclusive). -/
def inRadius (p c : Point) (r : ℝ) : Prop :=
  (p.x - c.x) ^ 2 + (p.y - c.y) ^ 2 ≤ r ^ 2

/-- `Math.atan2(y, x)`, modelled as the argument of the complex number
`x + y·i`. -/
noncomputable def atan2 (y x : ℝ) : ℝ := Complex.arg ⟨x, y⟩

open Classical in
/-- `adjustPointToCircle(p, c, r)`: identity inside the circle, otherwise
projection onto the circumference along the ray from `c` through `p`. -/
noncomputable def adjustPointToCircle (p c : Point) (r : ℝ) : Point :=
  if inRadius p c r then p
  else
    { x := c.x + r * Real.cos (atan2 (p.y - c.y) (p.x - c.x))
      y := c.y + r * Real.sin (atan2 (p.y - c.y) (p.x - c.x)) }

/-- C6: when `p` is already within radius `r` of `c`, `adjustPointToCircle`
returns `p` itself; otherwise the result lies exactly on the circle's
circumference — its squared distance from `c` equals `r²`, its distance
from `c` equals `r` (for `r ≥ 0`), and `inRadius` holds of it with
equality. -/
theorem adjustPointToCircle_spec (p c : Point) (r : ℝ) :
    (inRadius p c r → adjustPointToCircle p c r = p) ∧
    (¬inRadius p c r →
      ((adjustPointToCircle p c r).x - c.x) ^ 2 +
        ((adjustPointToCircle p c r).y - c.y) ^ 2 = r ^ 2) ∧
    (¬inRadius p c r → 0 ≤ r →
      Real.sqrt (((adjustPointToCircle p c r).x - c.x) ^ 2 +
        ((adjustPointToCircle p c r).y - c.y) ^ 2) = r) ∧
    (¬inRadius p c r → inRadius (adjustPointToCircle p c r) c r) := by
  have hsq : ¬inRadius p c r →
      ((adjustPointToCircle p c r).x - c.x) ^ 2 +
        ((adjustPointToCircle p c r).y - c.y) ^ 2 = r ^ 2 := by
    intro h
    simp only [adjustPointToCircle, if_neg h]
    have htrig := Real.sin_sq_add_cos_sq (atan2 (p.y - c.y) (p.x - c.x))
    nlinarith [htrig]
  refine ⟨?_, hsq, ?_, ?_⟩
  · intro h
    simp [adjustPointToCircle, h]
  · intro h hr
    rw [hsq h]
    exact Real.sqrt_sq hr
  · intro h
    exact le_of_eq (hsq h)

/-- Witness for C6: the point `(2, 0)` is outside the unit circle at the
origin, and its adjustment lands exactly on the circumference. -/
theorem adjustPointToCircle_spec_witness :
    ((adjustPointToCircle ⟨2, 0⟩ ⟨0, 0⟩ 1).x - (Point.mk 0 0).x) ^ 2 +
      ((adjustPointToCircle ⟨2, 0⟩ ⟨0, 0⟩ 1).y - (Point.mk 0 0).y) ^ 2 = 1 ^ 2 :=
  (adjustPointToCircle_spec ⟨2, 0⟩ ⟨0, 0⟩ 1).2.1 (by norm_num [inRadius])

/-- remeda's `clamp` on reals, as called by `clampToRect`: the lower bound
is checked first, then the upper bound. -/
noncomputable def jsClampR (value lo hi : ℝ) : ℝ :=
  if value < lo then lo else if hi < value then hi else value

open Classical in
/-- `clampToRect(a, {width, height, x: rx, y: ry})`: identity when the
point is inside the rectangle (inclusive bounds), otherwise per-coordinate
clamping. -/
noncomputable def clampToRect (a : Point) (r : Rect) : Point :=
  if a.x ≥ r.x ∧ a.x ≤ r.x + r.width ∧ a.y ≥ r.y ∧ a.y ≤ r.y + r.height then a
  else
    { x := jsClampR a.x r.x (r.x + r.width)
      y := jsClampR a.y r.y (r.y + r.height) }

theorem jsClampR_mem (v : ℝ) {lo hi : ℝ} (h : lo ≤ hi) :
    lo ≤ jsClampR v lo hi ∧ jsClampR v lo hi ≤ hi := by
  unfold jsClampR
  split_ifs with h1 h2
  · exact ⟨le_refl _, h⟩
  · exact ⟨h, le_refl _⟩
  · exact ⟨le_of_not_lt h1, le_of_not_lt h2⟩

/-- C8 counterexample: for a rectangle with negative width, `clampToRect`
is not idempotent — the claim's unrestricted idempotence fails.  With
`p = (5, 0)` and `rect = {x: 0, y: 0, width: -1, height: 0}`, one
application yields `(-1, 0)` but a second application yields `(0, 0)`. -/
theorem clampToRect_not_idempotent :
    clampToRect (clampToRect ⟨5, 0⟩ ⟨0, 0, -1, 0⟩) ⟨0, 0, -1, 0⟩ ≠
      clampToRect ⟨5, 0⟩ ⟨0, 0, -1, 0⟩ := by
  have h1 : clampToRect ⟨5, 0⟩ ⟨0, 0, -1, 0⟩ = ⟨-1, 0⟩ := by
    norm_num [clampToRect, jsClampR]
  have h2 : clampToRect ⟨-1, 0⟩ ⟨0, 0, -1, 0⟩ = ⟨0, 0⟩ := by
    norm_num [clampToRect, jsClampR]
  rw [h1, h2]
  intro h
  have := congrArg Point.x h
  norm_num at this

/-- C8 (amended): for every rectangle with non-negative width and height,
`clampToRect` is idempotent; it returns the point unchanged when the point
lies within the rectangle (inclusive bounds), and otherwise clamps each
coordinate independently to `[rect.x, rect.x + width]` and
`[rect.y, rect.y + height]`. -/
theorem clampToRect_idempotent (a : Point) (r : Rect)
    (hw : 0 ≤ r.width) (hh : 0 ≤ r.height) :
    clampToRect (clampToRect a r) r = clampToRect a r ∧
    ((a.x ≥ r.x ∧ a.x ≤ r.x + r.width ∧ a.y ≥ r.y ∧ a.y ≤ r.y + r.height) →
      clampToRect a r = a) ∧
    (¬(a.x ≥ r.x ∧ a.x ≤ r.x + r.width ∧ a.y ≥ r.y ∧ a.y ≤ r.y + r.height) →
      clampToRect a r =
        ⟨jsClampR a.x r.x (r.x + r.width), jsClampR a.y r.y (r.y + r.height)⟩) := by
  refine ⟨?_, ?_, ?_⟩
  · by_cases hin : a.x ≥ r.x ∧ a.x ≤ r.x + r.width ∧ a.y ≥ r.y ∧ a.y ≤ r.y + r.height
    · have hid : clampToRect a r = a := by
        rw [clampToRect, if_pos hin]
      rw [hid]
      exact hid
    · have hx := jsClampR_mem a.x (by linarith : r.x ≤ r.x + r.width)
      have hy := jsClampR_mem a.y (by linarith : r.y ≤ r.y + r.height)
      have heq : clampToRect a r =
          ⟨jsClampR a.x r.x (r.x + r.width), jsClampR a.y r.y (r.y + r.height)⟩ := by
        rw [clampToRect, if_neg hin]
      rw [heq, clampToRect]
      exact if_pos ⟨hx.1, hx.2, hy.1, hy.2⟩
  · intro hin
    rw [clampToRect, if_pos hin]
  · intro hin
    rw [clampToRect, if_neg hin]

/-- Witness for C8 (amended) at a concrete point and unit square. -/
theorem clampToRect_idempotent_witness :
    clampToRect (clampToRect ⟨3, 4⟩ ⟨0, 0, 1, 1⟩) ⟨0, 0, 1, 1⟩ =
      clampToRect ⟨3, 4⟩ ⟨0, 0, 1, 1⟩ :=
  (clampToRect_idempotent ⟨3, 4⟩ ⟨0, 0, 1, 1⟩ (by norm_num) (by norm_num)).1

/-! ## calculateRatioDimensions (`helpers.ts` lines 321–338, 371–377)

Dimensions are JS numbers; the arithmetic here (division, `Math.min`,
multiplication) is modelled over exact rationals. -/

/-- The `Dimension` interface: `{width, height}`. -/
structure Dimension where
  width : ℚ
  height : ℚ
deriving DecidableEq

/-- `resizeRectToFitAspectRatio(rect1, aspectRatio)`:
`newHeight = Math.min(rect1.width / aspectRatio, rect1.height)`, result
`{width: aspectRatio * newHeight, height: newHeight}`. -/
def resizeRectToFitAspectRatio (rect1 : Dimension) (aspectRatio : ℚ) : Dimension :=
  { width := aspectRatio * min (rect1.width / aspectRatio) rect1.height
    height := min (rect1.width / aspectRatio) rect1.height }

/-- `String.prototype.split(":")`, on a string modelled as its list of
characters (kernel-computable, unlike `String.splitOn`). -/
def splitOnColon : List Char → List (List Char)
  | [] => [[]]
  | c :: rest =>
    if c = ':' then [] :: splitOnColon rest
    else
      match splitOnColon rest with
      | [] => [[c]]
      | p :: ps => (c :: p) :: ps

/-- JS `Number(_)` on the strings this development applies it to: a
non-empty decimal digit string denotes the corresponding natural number,
and `none` stands for the `NaN` any other string produces. -/
def jsNumber (s : List Char) : Option Nat :=
  if s ≠ [] ∧ s.all (fun c => c.isDigit) then
    some (s.foldl (fun acc c => acc * 10 + (c.toNat - Char.toNat '0')) 0)
  else none

/-- `calculateRatioDimensions(width, height, aspectRatio)`: split the ratio
string on `":"`; fewer than two parts is a format error; otherwise the
first two parts are parsed with `Number` and passed on.  A `NaN` from a
non-numeric part propagates through the arithmetic, so the resulting
`NaN`-dimensions are modelled as `none`.  (For a zero consequent JS
produces an infinite ratio; no theorem below evaluates that case.) -/
def calculateRatioDimensions (width height : ℚ) (aspectRatio : List Char) :
    Except String (Option Dimension) :=
  if (splitOnColon aspectRatio).length < 2 then
    .error "aspectRatio must be in format of a:b"
  else
    match jsNumber ((splitOnColon aspectRatio).getD 0 []),
        jsNumber ((splitOnColon aspectRatio).getD 1 []) with
    | some antecedent, some consequent =>
      .ok (some (resizeRectToFitAspectRatio ⟨width, height⟩
        ((antecedent : ℚ) / (consequent : ℚ))))
    | _, _ => .ok none

/-- When the split has at least two parts and both parse, the function
returns the fitted dimensions (no error). -/
theorem calculateRatioDimensions_eval {width height : ℚ} {aspectRatio : List Char}
    {p0 p1 : List Char} {rest : List (List Char)} {a b : Nat}
    (hsplit : splitOnColon aspectRatio = p0 :: p1 :: rest)
    (ha : jsNumber p0 = some a) (hb : jsNumber p1 = some b) :
    calculateRatioDimensions width height aspectRatio =
      .ok (some (resizeRectToFitAspectRatio ⟨width, height⟩
        ((a : ℚ) / (b : ℚ)))) := by
  have hlen : ¬(splitOnColon aspectRatio).length < 2 := by
    rw [hsplit]
    simp only [List.length_cons]
    omega
  rw [calculateRatioDimensions, if_neg hlen, hsplit]
  simp only [List.getD_cons_zero, List.getD_cons_succ]
  rw [ha, hb]

/-- C7 counterexample: `"1:2:3"` does not split into exactly two
colon-separated parts, yet `calculateRatioDimensions` raises no format
error: it parses the first two parts (`1`, `2`) and returns the fitted
dimensions, refuting the claim's "exactly two numeric parts" error
condition. -/
theorem calculateRatioDimensions_three_parts :
    calculateRatioDimensions 1920 1080 ['1', ':', '2', ':', '3'] =
      .ok (some ⟨540, 1080⟩) := by
  rw [calculateRatioDimensions_eval
    (show splitOnColon ['1', ':', '2', ':', '3'] = [['1'], ['2'], ['3']] by decide)
    (show jsNumber ['1'] = some 1 by decide)
    (show jsNumber ['2'] = some 2 by decide)]
  have : resizeRectToFitAspectRatio ⟨1920, 1080⟩ (((1 : Nat) : ℚ) / ((2 : Nat) : ℚ)) =
      ⟨540, 1080⟩ := by
    rw [resizeRectToFitAspectRatio]
    norm_num [min_def]
  rw [this]

/-- C7 (amended): `calculateRatioDimensions` throws its format error
exactly when the ratio string splits into fewer than two colon-separated
parts; otherwise it parses the first two parts with `Number` and returns
`resizeRectToFitAspectRatio({width, height}, antecedent / consequent)`. -/
theorem calculateRatioDimensions_spec (width height : ℚ) (aspectRatio : List Char) :
    ((∃ msg, calculateRatioDimensions width height aspectRatio = .error msg) ↔
      (splitOnColon aspectRatio).length < 2) ∧
    (∀ (p0 p1 : List Char) (rest : List (List Char)) (a b : Nat),
      splitOnColon aspectRatio = p0 :: p1 :: rest →
      jsNumber p0 = some a → jsNumber p1 = some b →
      calculateRatioDimensions width height aspectRatio =
        .ok (some (resizeRectToFitAspectRatio ⟨width, height⟩
          ((a : ℚ) / (b : ℚ))))) := by
  refine ⟨?_, fun p0 p1 rest a b hsplit ha hb =>
    calculateRatioDimensions_eval hsplit ha hb⟩
  by_cases hlen : (splitOnColon aspectRatio).length < 2
  · simp only [calculateRatioDimensions, if_pos hlen, hlen, iff_true]
    exact ⟨_, rfl⟩
  · simp only [calculateRatioDimensions, if_neg hlen, hlen, iff_false]
    rintro ⟨msg, hmsg⟩
    rcases h0 : jsNumber ((splitOnColon aspectRatio).getD 0 []) with _ | a <;>
      rcases h1 : jsNumber ((splitOnColon aspectRatio).getD 1 []) with _ | b <;>
      rw [h0, h1] at hmsg <;> cases hmsg

/-- Witness for C7 (amended): `"4:3"` parses and delegates. -/
theorem calculateRatioDimensions_spec_witness :
    calculateRatioDimensions 1920 1080 ['4', ':', '3'] =
      .ok (some (resizeRectToFitAspectRatio ⟨1920, 1080⟩
        (((4 : Nat) : ℚ) / ((3 : Nat) : ℚ)))) :=
  (calculateRatioDimensions_spec 1920 1080 ['4', ':', '3']).2 ['4'] ['3'] [] 4 3
    (by decide) (by decide) (by decide)

/-! ## interpolateNumber (`helpers.ts` lines 122–124, 133–149)

```js
export function toFixed(value, decimal = 1) {
  return Math.round(value * 10 ** decimal) / 10 ** decimal;
}
export function interpolateNumber(values, t, decimal = 3) {
  const n = values.length - 1;
  const i = clamp(Math.floor(t * n), { min: 0, max: n - 1 });
  const start = values[i];
  const end = values[i + 1];
  const progress = (t - i / n) * n;
  return toFixed(lerp(start, end, progress), decimal);
}
```
-/

/-- `lerp(min, max, progress)`. -/
def lerp (minV maxV progress : ℚ) : ℚ := minV + (maxV - minV) * progress

/-- JS `Math.round`: round half toward positive infinity. -/
def jsRound (q : ℚ) : Int := ⌊q + 1 / 2⌋

/-- `toFixed(value, decimal = 1)`. -/
def toFixed (value : ℚ) (decimal : Nat := 1) : ℚ :=
  (jsRound (value * 10 ^ decimal) : ℚ) / 10 ^ decimal

/-- The segment index `i` chosen by `interpolateNumber`:
`clamp(Math.floor(t * n), {min: 0, max: n - 1})` with `n = length - 1`
(remeda's `clamp`, lower bound checked first). -/
def interpolateIndex (values : List ℚ) (t : ℚ) : Int :=
  jsClampInt ⌊t * (((values.length : Int) - 1 : Int) : ℚ)⌋ 0
    (((values.length : Int) - 1) - 1)

/-- `interpolateNumber(values, t, decimal = 3)`.  An out-of-bounds read of
`values[i]` or `values[i + 1]` yields `undefined`, which turns the result
into `NaN` (`none`). -/
def interpolateNumber (values : List ℚ) (t : ℚ) (decimal : Nat := 3) : Option ℚ :=
  match jsIndex values (interpolateIndex values t),
      jsIndex values (interpolateIndex values t + 1) with
  | some s, some e =>
    some (toFixed
      (lerp s e ((t - (interpolateIndex values t : ℚ) /
          (((values.length : Int) - 1 : Int) : ℚ)) *
        (((values.length : Int) - 1 : Int) : ℚ)))
      decimal)
  | _, _ => none

/-- C9: for a list with at least two elements the segment index lies in
`[0, length - 2]`, so both reads `values[i]` and `values[i + 1]` are in
bounds; for a one-element list the clamped index is `-1`, the first read
is out of bounds, and the function yields `NaN` (`none`) rather than the
list's sole element. -/
theorem interpolateNumber_index_bounds (values : List ℚ) (t : ℚ) (x : ℚ) :
    (2 ≤ values.length →
      0 ≤ interpolateIndex values t ∧
      interpolateIndex values t ≤ (values.length : Int) - 2 ∧
      (jsIndex values (interpolateIndex values t)).isSome = true ∧
      (jsIndex values (interpolateIndex values t + 1)).isSome = true) ∧
    (interpolateIndex [x] t = -1 ∧
      jsIndex [x] (interpolateIndex [x] t) = none ∧
      interpolateNumber [x] t 3 = none ∧
      interpolateNumber [x] t 3 ≠ some x) := by
  have hone : interpolateIndex [x] t = -1 := by
    unfold interpolateIndex jsClampInt
    norm_num
  constructor
  · intro hlen
    have hbounds : 0 ≤ interpolateIndex values t ∧
        interpolateIndex values t ≤ (values.length : Int) - 2 := by
      unfold interpolateIndex jsClampInt
      split_ifs <;> omega
    refine ⟨hbounds.1, hbounds.2, ?_, ?_⟩
    · simp only [jsIndex, if_pos hbounds.1]
      rw [List.getElem?_eq_getElem (by omega)]
      rfl
    · simp only [jsIndex, if_pos (by omega : (0 : Int) ≤ interpolateIndex values t + 1)]
      rw [List.getElem?_eq_getElem (by omega)]
      rfl
  · have hnone : interpolateNumber [x] t 3 = none := by
      unfold interpolateNumber
      rw [hone]
      simp [jsIndex]
    exact ⟨hone, by rw [hone]; simp [jsIndex], hnone, by rw [hnone]; simp⟩

/-- Witness for C9 at the two-element list `[0, 1]` and `t = 1/2`. -/
theorem interpolateNumber_index_bounds_witness :
    0 ≤ interpolateIndex [(0 : ℚ), 1] (1 / 2) ∧
      interpolateIndex [(0 : ℚ), 1] (1 / 2) ≤ (([(0 : ℚ), 1].length : Int)) - 2 ∧
      (jsIndex [(0 : ℚ), 1] (interpolateIndex [(0 : ℚ), 1] (1 / 2))).isSome = true ∧
      (jsIndex [(0 : ℚ), 1] (interpolateIndex [(0 : ℚ), 1] (1 / 2) + 1)).isSome = true :=
  (interpolateNumber_index_bounds [(0 : ℚ), 1] (1 / 2) 0).1 (by norm_num)

end Helpers
